import Mathlib

/-!
Shallow embedding of the recipe-ingredient reconciliation engine of the
smartfridge application: the quantity-string parser (app/utils.py,
parse_quantity_string), the recipe ingredient line parser with its inline
unit-normalization table (app/fridge/routes.py, parse_recipe_ingredient),
the inventory matcher and deduction executor inside the use_recipe route
(app/fridge/routes.py), and the markdown recipe parser
(app/recipe_generator.py, RecipeParser.parse_markdown_recipes).

Modelling conventions:
* Python str values are modelled as Lean String / List Char, with the ASCII
  behaviour of the character classes involved.
* Python float and decimal.Decimal numbers are modelled as Rat; the
  properties exercised never depend on binary floating-point rounding.
* Python re.match backtracking is modelled by explicitly enumerating the
  candidate matches of each regular expression in the preference order of
  the engine (ordered alternation, greedy repetition, leftmost result) and
  taking the first candidate that completes.
* Exceptions that the source catches are modelled as Option failures.
-/

namespace SmartFridge

/- Batteries marks the Rat operations irreducible; restore definitional
reducibility locally so that concrete runs of the embedded code can be
evaluated by the decide tactic. -/
attribute [local semireducible] Rat.mul Rat.inv Rat.add Rat.sub Rat.ofScientific

/-- Characters matched by the regex class \s and stripped by Python
str.strip() (ASCII model). -/
def pyIsSpace (c : Char) : Bool :=
  c = ' ' || c = '\t' || c = '\n' || c = '\r' || c = Char.ofNat 11 || c = Char.ofNat 12

/-- ASCII model of the regex class \d. -/
def pyIsDigit (c : Char) : Bool := c.isDigit

/-- ASCII model of the regex class [\w-] used by the ingredient-line regex. -/
def isWordDash (c : Char) : Bool := c.isAlphanum || c = '_' || c = '-'

/-- ASCII model of the regex class [a-zA-Z]. -/
def isAsciiAlpha (c : Char) : Bool := c.isAlpha

/-- ASCII model of Python str.lower on one character. -/
def lowerChar (c : Char) : Char := c.toLower

/-- ASCII model of Python str.lower. -/
def lowerStr (s : String) : String := String.mk (s.data.map lowerChar)

/-- Python str.lstrip() on a character list. -/
def stripLeftC (l : List Char) : List Char := l.dropWhile pyIsSpace

/-- Python str.rstrip() on a character list. -/
def stripRightC (l : List Char) : List Char := (l.reverse.dropWhile pyIsSpace).reverse

/-- Python str.strip() on a character list. -/
def pyStripC (l : List Char) : List Char := stripRightC (stripLeftC l)

/-- Python str.split(sep) for a one-character separator (keeps empty parts,
and the split of the empty string is one empty part, as in Python). -/
def pySplitOn (sep : Char) (l : List Char) : List (List Char) :=
  l.foldr (fun c acc =>
    match acc with
    | h :: t => if c = sep then [] :: h :: t else (c :: h) :: t
    | [] => [[c]]) [[]]

/-- Python str.split() with no argument: split on whitespace runs and drop
empty parts. -/
def pySplitWs (l : List Char) : List (List Char) :=
  (l.foldr (fun c acc =>
    match acc with
    | h :: t => if pyIsSpace c then [] :: h :: t else (c :: h) :: t
    | [] => [[c]]) [[]]).filter (fun p => p ≠ [])

/-- Numeric value of a digit run. -/
def digitsVal (l : List Char) : Nat := l.foldl (fun n c => n * 10 + (c.toNat - 48)) 0

/-- Conversion of the numeric strings produced by the parsers here: a digit
run optionally followed by a dot and a digit run, as accepted by both
float(...) and decimal.Decimal(...). Any other shape yields none (the
source catches the corresponding ValueError / InvalidOperation and
recovers). Leading and trailing whitespace is accepted, as both Python
converters do; signs and exponents never reach these call sites because
every argument is a capture of a digits-only regex group. -/
def parseNumQ (l : List Char) : Option ℚ :=
  let t := pyStripC l
  let d1 := t.takeWhile pyIsDigit
  let r1 := t.drop d1.length
  match r1 with
  | [] => if d1 = [] then none else some (digitsVal d1)
  | '.' :: r2 =>
    let d2 := r2.takeWhile pyIsDigit
    if r2.drop d2.length = [] ∧ (d1 ≠ [] ∨ d2 ≠ []) then
      some ((digitsVal d1 : ℚ) + (digitsVal d2 : ℚ) / ((10 : ℚ) ^ d2.length))
    else none
  | _ => none

/-- Length of the run of a character class at the head of a list. -/
def runLen (p : Char → Bool) (l : List Char) : Nat := (l.takeWhile p).length

/-- Anchored match of QUANTITY_PATTERN from app/constants.py, the regex
(\d+(?:\.\d+)?)\s*([a-zA-Z]+) anchored at both ends. The character classes
at every boundary are disjoint, so the greedy backtracking match is
exactly the maximal-run match computed here. Returns the two captures. -/
def matchQuantityPattern (s : List Char) : Option (List Char × List Char) :=
  let d1 := s.takeWhile pyIsDigit
  if d1 = [] then none else
  let r1 := s.drop d1.length
  let numRest : List Char × List Char :=
    match r1 with
    | '.' :: rr =>
      let d2 := rr.takeWhile pyIsDigit
      if d2 = [] then (d1, r1) else (d1 ++ '.' :: d2, rr.drop d2.length)
    | _ => (d1, r1)
  let r2 := numRest.2
  let r3 := r2.drop (runLen pyIsSpace r2)
  let u := r3.takeWhile isAsciiAlpha
  if u = [] ∨ r3.drop u.length ≠ [] then none
  else some (numRest.1, u)

/-- Anchored match of FRACTION_PATTERN from app/constants.py, the regex
(\d+)/(\d+)\s*([a-zA-Z]+) anchored at both ends; deterministic for the
same disjointness reason. Returns the three captures. -/
def matchFractionPattern (s : List Char) : Option (List Char × List Char × List Char) :=
  let d1 := s.takeWhile pyIsDigit
  if d1 = [] then none else
  match s.drop d1.length with
  | '/' :: r1 =>
    let d2 := r1.takeWhile pyIsDigit
    if d2 = [] then none else
    let r2 := r1.drop d2.length
    let r3 := r2.drop (runLen pyIsSpace r2)
    let u := r3.takeWhile isAsciiAlpha
    if u = [] ∨ r3.drop u.length ≠ [] then none
    else some (d1, d2, u)
  | _ => none

/-- Anchored match of MIXED_NUMBER_PATTERN from app/constants.py, the regex
(\d+)\s+(\d+)/(\d+)\s*([a-zA-Z]+) anchored at both ends; deterministic for
the same disjointness reason. Returns the four captures. -/
def matchMixedPattern (s : List Char) :
    Option (List Char × List Char × List Char × List Char) :=
  let d1 := s.takeWhile pyIsDigit
  if d1 = [] then none else
  let r0 := s.drop d1.length
  let w := runLen pyIsSpace r0
  if w = 0 then none else
  let d2 := (r0.drop w).takeWhile pyIsDigit
  if d2 = [] then none else
  match (r0.drop w).drop d2.length with
  | '/' :: r1 =>
    let d3 := r1.takeWhile pyIsDigit
    if d3 = [] then none else
    let r2 := r1.drop d3.length
    let r3 := r2.drop (runLen pyIsSpace r2)
    let u := r3.takeWhile isAsciiAlpha
    if u = [] ∨ r3.drop u.length ≠ [] then none
    else some (d1, d2, d3, u)
  | _ => none

/-- app/utils.py parse_quantity_string: strips the input, then tries
QUANTITY_PATTERN, FRACTION_PATTERN and MIXED_NUMBER_PATTERN in that order;
numeric conversion failures and ZeroDivisionError inside a branch fall
through to the next pattern (the source catches them and continues); if
nothing applies the result is (none, none). Captured units are
lowercased. -/
def quantityPatterns (t : List Char) : Option (ℚ × String) :=
  let r1 : Option (ℚ × String) := do
    let (num, u) ← matchQuantityPattern t
    let q ← parseNumQ num
    pure (q, lowerStr (String.mk u))
  let r2 : Option (ℚ × String) := do
    let (n, d, u) ← matchFractionPattern t
    let nv ← parseNumQ n
    let dv ← parseNumQ d
    if dv = 0 then none else pure (nv / dv, lowerStr (String.mk u))
  let r3 : Option (ℚ × String) := do
    let (wh, n, d, u) ← matchMixedPattern t
    let wv ← parseNumQ wh
    let nv ← parseNumQ n
    let dv ← parseNumQ d
    if dv = 0 then none else pure (wv + nv / dv, lowerStr (String.mk u))
  r1 <|> r2 <|> r3

/-- app/utils.py parse_quantity_string as a whole: strip, then the first
pattern that applies gives the pair; otherwise (none, none). -/
def parse_quantity_string (s : String) : Option ℚ × Option String :=
  match quantityPatterns (pyStripC s.data) with
  | some (q, u) => (some q, some u)
  | none => (none, none)

/-! ### Ingredient line parser (app/fridge/routes.py, parse_recipe_ingredient)

The structural regex is
  (\d+(?:\.\d+)?|\d+/\d+|\d+\s+\d+/\d+)?\s*([\w-]+(?:\s+[\w-]+)?)?\s+(.*)
anchored at the start, applied with re.match. Because the final (.*)
accepts anything up to the end of the line, the engine's backtracking
search succeeds at the first combination, in preference order, of
- group 1 (the optional quantity token; present before absent, the three
  alternatives tried in written order, each digit run greedy),
- the gap \s* (longest run prefix first),
- group 2 (the optional one-or-two-word unit token; present before
  absent, runs greedy, the optional second word present before absent),
that leaves a remainder starting with at least one whitespace character;
\s+ then greedily eats that whitespace run and (.*) captures the rest.
The candidate enumerations below list those combinations in exactly the
engine's preference order. -/

/-- The list [n, n-1, ..., 1]: greedy preference order for the length
taken by a one-or-more repetition whose maximal run has length n. -/
def downFrom (n : Nat) : List Nat := (List.range n).reverse.map (· + 1)

/-- The list [n, n-1, ..., 0]: greedy preference order for a
zero-or-more repetition whose maximal run has length n. -/
def downFrom0 (n : Nat) : List Nat := (List.range (n + 1)).reverse

/-- Candidates (capture, remainder) for the first alternative of the
quantity token, \d+(?:\.\d+)?, in engine preference order: digit run
greedy, then the optional dot-and-digits group present (its digit run
greedy) before absent. -/
def a1Cands (s : List Char) : List (List Char × List Char) :=
  (downFrom (runLen pyIsDigit s)).flatMap (fun k =>
    (if (s.drop k).head? = some '.' then
      (downFrom (runLen pyIsDigit (s.drop (k + 1)))).map (fun j =>
        (s.take k ++ '.' :: (s.drop (k + 1)).take j, s.drop (k + 1 + j)))
     else []) ++ [(s.take k, s.drop k)])

/-- Candidates for the second alternative of the quantity token,
\d+/\d+, in engine preference order. -/
def a2Cands (s : List Char) : List (List Char × List Char) :=
  (downFrom (runLen pyIsDigit s)).flatMap (fun k =>
    if (s.drop k).head? = some '/' then
      (downFrom (runLen pyIsDigit (s.drop (k + 1)))).map (fun j =>
        (s.take k ++ '/' :: (s.drop (k + 1)).take j, s.drop (k + 1 + j)))
    else [])

/-- Candidates for the third alternative of the quantity token,
\d+\s+\d+/\d+, in engine preference order. -/
def a3Cands (s : List Char) : List (List Char × List Char) :=
  (downFrom (runLen pyIsDigit s)).flatMap (fun k =>
    (downFrom (runLen pyIsSpace (s.drop k))).flatMap (fun w =>
      (downFrom (runLen pyIsDigit (s.drop (k + w)))).flatMap (fun j =>
        if (s.drop (k + w + j)).head? = some '/' then
          (downFrom (runLen pyIsDigit (s.drop (k + w + j + 1)))).map (fun m =>
            (s.take k ++ (s.drop k).take w ++ (s.drop (k + w)).take j ++
              '/' :: (s.drop (k + w + j + 1)).take m,
             s.drop (k + w + j + 1 + m)))
        else [])))

/-- Candidates for the whole optional quantity group in engine
preference order: the three alternatives in written order, then the
group left absent. -/
def aCands (s : List Char) : List (Option (List Char) × List Char) :=
  ((a1Cands s ++ a2Cands s ++ a3Cands s).map (fun p => (some p.1, p.2))) ++ [(none, s)]

/-- Candidates (capture, remainder) for the mandatory unit-word form
[\w-]+(?:\s+[\w-]+)?, in engine preference order: first word greedy,
then the optional whitespace-plus-second-word present (greedy) before
absent. The capture includes the whitespace between the two words. -/
def uWordCands (t : List Char) : List (List Char × List Char) :=
  (downFrom (runLen isWordDash t)).flatMap (fun k =>
    ((downFrom (runLen pyIsSpace (t.drop k))).flatMap (fun w2 =>
      (downFrom (runLen isWordDash (t.drop (k + w2)))).map (fun k2 =>
        (t.take k ++ (t.drop k).take w2 ++ (t.drop (k + w2)).take k2,
         t.drop (k + w2 + k2)))))
    ++ [(t.take k, t.drop k)])

/-- Candidates for the optional unit group: present before absent. -/
def uCands (t : List Char) : List (Option (List Char) × List Char) :=
  ((uWordCands t).map (fun p => (some p.1, p.2))) ++ [(none, t)]

/-- The closing \s+(.*) of both regexes: succeeds exactly when the
remainder starts with whitespace; \s+ greedily takes the whole run and
(.*) captures everything after it. -/
def tryTailWs (rest : List Char) : Option (List Char) :=
  let n := runLen pyIsSpace rest
  if n = 0 then none else some (rest.drop n)

/-- re.match of the main structural regex of parse_recipe_ingredient:
returns (group 1, group 2, group 3) of the engine's match, or none. -/
def mainMatch (s : List Char) :
    Option (Option (List Char) × Option (List Char) × List Char) :=
  (aCands s).findSome? (fun ac =>
    (downFrom0 (runLen pyIsSpace ac.2)).findSome? (fun w =>
      let r2 := ac.2.drop w
      (uCands r2).findSome? (fun uc =>
        (tryTailWs uc.2).map (fun r => (ac.1, uc.1, r)))))

/-- re.match of the fallback regex ([\w-]+(?:\s+[\w-]+)?)\s+(.*):
returns (group 1, group 2) of the engine's match, or none. -/
def secondaryMatch (s : List Char) : Option (List Char × List Char) :=
  (uWordCands s).findSome? (fun uc =>
    (tryTailWs uc.2).map (fun r => (uc.1, r)))

/-- Lines 321-335 of app/fridge/routes.py: conversion of the captured
quantity token via decimal.Decimal, with the fraction and
mixed-fraction cases split by hand on the presence of a slash and of a
space character. InvalidOperation, ValueError and ZeroDivisionError
(decimal.DivisionByZero included) are caught and give none. The capture
always starts and ends with a digit, so the list-shape fallbacks below
are unreachable; they correspond to index errors the source could not
hit either. -/
def parseQtyCapture (qs : List Char) : Option ℚ :=
  if qs.contains '/' then
    if qs.contains ' ' then
      match pySplitWs qs with
      | p0 :: p1 :: _ =>
        (match pySplitOn '/' p1 with
         | n :: d :: _ => do
           let a ← parseNumQ p0
           let nv ← parseNumQ n
           let dv ← parseNumQ d
           if dv = 0 then none else pure (a + nv / dv)
         | _ => none)
      | _ => none
    else
      match pySplitOn '/' qs with
      | n :: d :: _ => do
        let nv ← parseNumQ n
        let dv ← parseNumQ d
        if dv = 0 then none else pure (nv / dv)
      | _ => none
  else parseNumQ qs

/-- Lines 348-358 of app/fridge/routes.py: the inline unit-synonym
table (the UnitNormalizer of the specification). The membership test is
on the lowercased unit, but a unit that is in no synonym list is kept
exactly as written, original case included. -/
def normalizeUnit (u : String) : String :=
  let ul := lowerStr u
  if ul = "g" ∨ ul = "gram" ∨ ul = "grams" then "g"
  else if ul = "kg" ∨ ul = "kilogram" ∨ ul = "kilograms" then "kg"
  else if ul = "ml" ∨ ul = "milliliter" ∨ ul = "milliliters" then "ml"
  else if ul = "l" ∨ ul = "liter" ∨ ul = "liters" then "l"
  else u

/-- app/fridge/routes.py parse_recipe_ingredient: strips the line,
returns none for a blank line, otherwise matches the main structural
regex (falling back to the unit-name regex, and finally to treating the
whole line as the name), converts the quantity token, passes a truthy
unit through the synonym table, and returns the name lowercased. -/
def parse_recipe_ingredient (line : String) :
    Option (Option ℚ × Option String × String) :=
  let l := pyStripC line.data
  if l = [] then none else
  let parts : Option ℚ × Option String × List Char :=
    match mainMatch l with
    | some (qs?, us?, ns) =>
      let q := match qs? with
               | some qs => parseQtyCapture qs
               | none => none
      let u := match us? with
               | some us => if us = [] then none else some (String.mk (pyStripC us))
               | none => none
      (q, u, pyStripC ns)
    | none =>
      match secondaryMatch l with
      | some (us, ns) => (none, some (String.mk (pyStripC us)), pyStripC ns)
      | none => (none, none, l)
  let unit1 : Option String :=
    match parts.2.1 with
    | some u => if u ≠ "" then some (normalizeUnit u) else some u
    | none => none
  some (parts.1, unit1, String.mk (parts.2.2.map lowerChar))

/-! ### Inventory matcher and deduction executor (app/fridge/routes.py, use_recipe)

The route body, stripped of web glue: parse the recipe text line by line
into required items (aborting before any matching if a line yields no
name), look each required item up in a dict keyed by the lowercased
inventory name, try the quantity field then the weight field, collect a
deduction plan plus missing and unit-mismatch diagnostics, and execute
the plan only when both diagnostic lists are empty. Deducting a field to
a value at or below zero deletes the whole record. The unit-mismatch
diagnostic the source appends is a formatted message built from the
item's original line; it is modelled here by the original line itself,
since the claims concern only which items are flagged. -/

/-- An inventory record (the Ingredient model fields used by use_recipe). -/
structure IngredientRecord where
  name : String
  quantity : Option ℚ := none
  unit : Option String := none
  weight : Option ℚ := none
  weight_unit : Option String := none
deriving DecidableEq, Repr

/-- A required item extracted from one recipe line. -/
structure RequiredItem where
  name : String
  qty : Option ℚ
  unit : Option String
  original_line : String
deriving DecidableEq, Repr

/-- Which record field a plan entry deducts from. -/
inductive DeductField where
  | quantity
  | weight
deriving DecidableEq, Repr

/-- One deduction-plan entry: the matched record together with its
position in the inventory list (standing for Python object identity),
the amount, and the targeted field. -/
structure PlanEntry where
  idx : Nat
  ingredient : IngredientRecord
  deduct_amount : ℚ
  deduct_from : DeductField
deriving DecidableEq, Repr

/-- Python truthiness of an optional string: None and the empty string
are falsy. -/
def strTruthy : Option String → Bool
  | none => false
  | some s => s ≠ ""

/-- Line 399: the dict comprehension keyed by ing.name.lower(); a later
record with the same lowercased name overwrites an earlier one, so the
lookup returns the last record whose lowercased name equals the key,
with its position. -/
def fridgeLookup (inv : List IngredientRecord) (key : String) :
    Option (Nat × IngredientRecord) :=
  inv.enum.foldl
    (fun acc p => if lowerStr p.2.name = key then some (p.1, p.2) else acc) none

/-- Line 424 and line 433: the required unit and a record unit field
allow a deduction if the required unit is absent, the record unit is
falsy, or the two compare equal after lowercasing. -/
def unitsAllow (ru : Option String) (fu : Option String) : Bool :=
  match ru with
  | none => true
  | some r =>
    match fu with
    | none => true
    | some f => if f = "" then true else lowerStr r = lowerStr f

/-- Lines 448-449: an explicit unit conflict on the quantity field. -/
def unitConflictQty (item : RequiredItem) (rec : IngredientRecord) : Bool :=
  rec.quantity.isSome && item.unit.isSome && strTruthy rec.unit &&
    (match item.unit, rec.unit with
     | some r, some f => lowerStr r ≠ lowerStr f
     | _, _ => false)

/-- Lines 450-451: an explicit unit conflict on the weight field,
only consulted when the quantity field showed none. -/
def unitConflictWt (item : RequiredItem) (rec : IngredientRecord) : Bool :=
  rec.weight.isSome && item.unit.isSome && strTruthy rec.weight_unit &&
    (match item.unit, rec.weight_unit with
     | some r, some f => lowerStr r ≠ lowerStr f
     | _, _ => false)

/-- Condition of lines 422-425: the quantity field yields a deduction. -/
def qtyFieldDeducts (item : RequiredItem) (rec : IngredientRecord) (q : ℚ) : Bool :=
  match rec.quantity with
  | some fq => unitsAllow item.unit rec.unit && q ≤ fq
  | none => false

/-- Condition of lines 431-434: the weight field yields a deduction. -/
def wtFieldDeducts (item : RequiredItem) (rec : IngredientRecord) (q : ℚ) : Bool :=
  match rec.weight with
  | some fw => unitsAllow item.unit rec.weight_unit && q ≤ fw
  | none => false

/-- Lines 404-464: processing of one required item. The accumulator is
(deductions, missing_ingredients, unit_mismatches). -/
def matchStep (inv : List IngredientRecord)
    (acc : List PlanEntry × List String × List String) (item : RequiredItem) :
    List PlanEntry × List String × List String :=
  let (plans, missing, mismatches) := acc
  match fridgeLookup inv item.name with
  | none => (plans, missing ++ [item.original_line], mismatches)
  | some (i, rec) =>
    match item.qty with
    | none => (plans, missing, mismatches)
    | some q =>
      if qtyFieldDeducts item rec q then
        (plans ++ [⟨i, rec, q, DeductField.quantity⟩], missing, mismatches)
      else if wtFieldDeducts item rec q then
        (plans ++ [⟨i, rec, q, DeductField.weight⟩], missing, mismatches)
      else if unitConflictQty item rec || unitConflictWt item rec then
        (plans, missing, mismatches ++ [item.original_line])
      else
        (plans, missing, mismatches)

/-- Lines 398-464: the whole availability check, the InventoryMatcher of
the specification. -/
def matchRequired (required : List RequiredItem) (inv : List IngredientRecord) :
    List PlanEntry × List String × List String :=
  required.foldl (matchStep inv) ([], [], [])

/-- Lines 471-491: execution of one plan entry over the working
inventory (a list of slots, none marking a deleted record) and the
updated / deleted report lists (record names; the source formats the
updated entries with their new value). A plan entry always targets a
field the matcher saw set, so the getD defaults are never consulted; a
slot already deleted by an earlier entry is skipped here, standing for
the ORM delete of an already-deleted object, which no claim exercises. -/
def applyDeduction
    (st : List (Option IngredientRecord) × List String × List String)
    (e : PlanEntry) :
    List (Option IngredientRecord) × List String × List String :=
  let (slots, updated, deleted) := st
  match slots.get? e.idx with
  | some (some rec) =>
    match e.deduct_from with
    | DeductField.quantity =>
      let newq := rec.quantity.getD 0 - e.deduct_amount
      if newq ≤ 0 then
        (slots.set e.idx none, updated, deleted ++ [rec.name])
      else
        (slots.set e.idx (some { rec with quantity := some newq }),
         updated ++ [rec.name], deleted)
    | DeductField.weight =>
      let neww := rec.weight.getD 0 - e.deduct_amount
      if neww ≤ 0 then
        (slots.set e.idx none, updated, deleted ++ [rec.name])
      else
        (slots.set e.idx (some { rec with weight := some neww }),
         updated ++ [rec.name], deleted)
  | _ => (slots, updated, deleted)

/-- Lines 469-491: the DeductionExecutor of the specification, run over
a whole plan. -/
def applyDeductions (inv : List IngredientRecord) (plan : List PlanEntry) :
    List (Option IngredientRecord) × List String × List String :=
  plan.foldl applyDeduction (inv.map some, [], [])

/-- Lines 398-519 with the web glue stripped: match, then execute the
plan only when both diagnostic lists are empty; otherwise the inventory
is returned untouched together with the diagnostics. -/
def useRecipeCore (required : List RequiredItem) (inv : List IngredientRecord) :
    List IngredientRecord × List String × List String :=
  let (plan, missing, mismatches) := matchRequired required inv
  if missing = [] ∧ mismatches = [] then
    ((applyDeductions inv plan).1.filterMap id, [], [])
  else
    (inv, missing, mismatches)

/-- Lines 378-387: one iteration of the per-line parsing loop of
use_recipe: a parsed line with a truthy name joins the required items,
a parsed line with a falsy name or an unparsed non-blank line joins the
parsing_errors collection. -/
def requiredStep (acc : List RequiredItem × List String) (lc : List Char) :
    List RequiredItem × List String :=
  let (req, errs) := acc
  let line := String.mk lc
  match parse_recipe_ingredient line with
  | some (q, u, n) =>
    if n ≠ "" then (req ++ [⟨n, q, u, line⟩], errs) else (req, errs ++ [line])
  | none =>
    if pyStripC lc ≠ [] then (req, errs ++ [line]) else (req, errs)

/-- Lines 374-396: the per-line parsing loop of use_recipe, producing
the required items and the parsing_errors collection. -/
def parseRequiredItems (text : String) : List RequiredItem × List String :=
  (pySplitOn '\n' (pyStripC text.data)).foldl requiredStep ([], [])

/-! ### Markdown recipe parser (app/recipe_generator.py, RecipeParser)

parse_markdown_recipes walks the stripped response line by line: a line
starting with the characters hash hash space finalizes the recipe in
progress (keeping it only if valid) and opens a new one; inside a
recipe, case-insensitive section headers switch the collection mode;
any other non-blank line is added to the current section's list after
the per-line cleanup; at the end the recipe in progress is finalized
the same way. -/

/-- A recipe candidate under construction (and, once validated, a
ParsedRecipe of the specification). -/
structure RecipeAcc where
  title : String
  ingredients : List String
  instructions : List String
deriving DecidableEq, Repr

/-- The collection mode (current_section in the source). -/
inductive MdSection where
  | ingredients
  | instructions
deriving DecidableEq, Repr

/-- The fold state: finished recipes, the recipe in progress, the mode. -/
structure MdState where
  recipes : List RecipeAcc
  cur : Option RecipeAcc
  sect : Option MdSection
deriving DecidableEq, Repr

/-- RecipeParser._validate_recipe: a finalized recipe is kept only when
title, ingredients and instructions are all non-empty. -/
def validateRecipe (r : RecipeAcc) : Option RecipeAcc :=
  if r.title = "" then none
  else if r.ingredients = [] then none
  else if r.instructions = [] then none
  else some r

/-- Whether a character list starts with the given characters. -/
def startsWithC (pre l : List Char) : Bool := l.take pre.length = pre

/-- RecipeParser._parse_ingredient_line on an already stripped line:
strip a leading bullet marker, else keep the line if longer than one
character. -/
def mdIngredientLine (l : List Char) : Option (List Char) :=
  if startsWithC ('*' :: [' ']) l || startsWithC ('-' :: [' ']) l then
    some (pyStripC (l.drop 2))
  else if 1 < l.length then some l
  else none

/-- RecipeParser._parse_instruction_line on an already stripped line:
strip a leading bullet marker; else, when the first character is a digit
and the second is a dot, keep what follows the first dot, stripped;
else keep the line if longer than one character. -/
def mdInstructionLine (l : List Char) : Option (List Char) :=
  if startsWithC ('*' :: [' ']) l || startsWithC ('-' :: [' ']) l then
    some (pyStripC (l.drop 2))
  else
    match l with
    | c :: rest =>
      if c.isDigit && (rest.take 2 = '.' :: [' '] || rest.take 1 = ['.']) then
        some (pyStripC (rest.drop 1))
      else if 1 < l.length then some l
      else none
    | [] => none

/-- Finalization of the recipe in progress: append it to the finished
list when valid, drop it otherwise (the source logs a warning). -/
def mdFinalize (recipes : List RecipeAcc) (cur : Option RecipeAcc) : List RecipeAcc :=
  recipes ++ (cur.bind validateRecipe).toList

/-- One line of the parse_markdown_recipes loop. -/
def mdStep (st : MdState) (rawLine : List Char) : MdState :=
  let line := pyStripC rawLine
  if line = [] then st
  else if startsWithC ('#' :: '#' :: [' ']) line then
    { recipes := mdFinalize st.recipes st.cur,
      cur := some ⟨String.mk (pyStripC (line.drop 3)), [], []⟩,
      sect := none }
  else
    match st.cur with
    | none => st
    | some c =>
      let low := line.map lowerChar
      if startsWithC "### ingredients".data low then
        { st with sect := some MdSection.ingredients }
      else if startsWithC "### instructions".data low then
        { st with sect := some MdSection.instructions }
      else
        match st.sect with
        | some MdSection.ingredients =>
          match mdIngredientLine line with
          | some ing =>
            if ing ≠ [] then
              { st with cur := some { c with ingredients := c.ingredients ++ [String.mk ing] } }
            else st
          | none => st
        | some MdSection.instructions =>
          match mdInstructionLine line with
          | some ins =>
            if ins ≠ [] then
              { st with cur := some { c with instructions := c.instructions ++ [String.mk ins] } }
            else st
          | none => st
        | none => st

/-- RecipeParser.parse_markdown_recipes, the RecipeSuggestionFormatter
of the specification. -/
def parse_markdown_recipes (raw : String) : List RecipeAcc :=
  let st := (pySplitOn '\n' (pyStripC raw.data)).foldl mdStep ⟨[], none, none⟩
  mdFinalize st.recipes st.cur

/-- Structural completeness of a kept recipe. -/
def ValidRecipe (r : RecipeAcc) : Prop :=
  r.title ≠ "" ∧ r.ingredients ≠ [] ∧ r.instructions ≠ []

/-! ### Generic parsing lemmas -/

theorem findSome?_pred {α β : Type} {P : β → Prop} {f : α → Option β} :
    ∀ {l : List α}, (∀ a ∈ l, ∀ b, f a = some b → P b) →
      ∀ {b : β}, l.findSome? f = some b → P b := by
  intro l
  induction l with
  | nil => intro _ b h; simp [List.findSome?] at h
  | cons a as ih =>
    intro hall b hfind
    rw [List.findSome?] at hfind
    cases hfa : f a with
    | some c =>
      rw [hfa] at hfind
      obtain rfl := Option.some.inj hfind
      exact hall a (List.mem_cons_self a as) _ hfa
    | none =>
      rw [hfa] at hfind
      exact ih (fun x hx c hc => hall x (List.mem_cons_of_mem a hx) c hc) hfind

theorem drop_runLen (p : Char → Bool) (l : List Char) :
    l.drop (runLen p l) = l.dropWhile p := by
  induction l with
  | nil => rfl
  | cons c t ih =>
    by_cases hc : p c
    · have h1 : runLen p (c :: t) = runLen p t + 1 := by
        simp [runLen, List.takeWhile_cons, hc]
      rw [h1, List.drop_succ_cons, ih, List.dropWhile_cons_of_pos hc]
    · have h1 : runLen p (c :: t) = 0 := by
        simp [runLen, List.takeWhile_cons, hc]
      rw [h1, List.drop_zero, List.dropWhile_cons_of_neg hc]

theorem dropWhile_head_false (p : Char → Bool) :
    ∀ (l : List Char) (c : Char) (t : List Char), l.dropWhile p = c :: t → p c = false := by
  intro l
  induction l with
  | nil => intro c t h; simp at h
  | cons a as ih =>
    intro c t h
    by_cases ha : p a
    · rw [List.dropWhile_cons_of_pos ha] at h
      exact ih c t h
    · rw [List.dropWhile_cons_of_neg ha] at h
      obtain ⟨rfl, _⟩ := List.cons.inj h
      exact Bool.eq_false_iff.mpr ha

theorem pyStripC_eq_nil_iff (l : List Char) :
    pyStripC l = [] ↔ ∀ c ∈ l, pyIsSpace c := by
  unfold pyStripC stripRightC stripLeftC
  rw [List.reverse_eq_nil_iff, List.dropWhile_eq_nil_iff]
  constructor
  · intro h c hc
    have hc' : c ∈ l.takeWhile pyIsSpace ++ l.dropWhile pyIsSpace := by
      rw [List.takeWhile_append_dropWhile]
      exact hc
    rcases List.mem_append.mp hc' with hm | hm
    · exact List.mem_takeWhile_imp hm
    · exact h c (List.mem_reverse.mpr hm)
  · intro h c hc
    have hsub : l.dropWhile pyIsSpace <:+ l := by
      rw [← drop_runLen]
      exact List.drop_suffix _ _
    exact h c (hsub.subset (List.mem_reverse.mp hc))

theorem pyStripC_getLast_not_space (l : List Char) (h : pyStripC l ≠ []) :
    ∃ c, (pyStripC l).getLast? = some c ∧ pyIsSpace c = false := by
  have hdef : pyStripC l = ((stripLeftC l).reverse.dropWhile pyIsSpace).reverse := rfl
  rcases hy : (stripLeftC l).reverse.dropWhile pyIsSpace with _ | ⟨c, t⟩
  · exact absurd (by rw [hdef, hy]; rfl) h
  · refine ⟨c, ?_, dropWhile_head_false pyIsSpace _ c t hy⟩
    rw [hdef, hy, List.getLast?_reverse]
    rfl

theorem getLast?_of_suffix {r s : List Char} (h : r <:+ s) (hr : r ≠ []) :
    s.getLast? = r.getLast? := by
  obtain ⟨t, rfl⟩ := h
  exact List.getLast?_append_of_ne_nil t hr

theorem mkStr_eq_empty_iff (l : List Char) : String.mk l = "" ↔ l = [] := by
  constructor
  · intro h
    have := congrArg String.data h
    simpa using this
  · intro h
    rw [h]

theorem aCands_suffix (s : List Char) : ∀ p ∈ aCands s, p.2 <:+ s := by
  intro p hp
  unfold aCands at hp
  rcases List.mem_append.mp hp with hp | hp
  · rcases List.mem_map.mp hp with ⟨q, hq, rfl⟩
    rcases List.mem_append.mp hq with hq | hq
    · rcases List.mem_append.mp hq with hq | hq
      · unfold a1Cands at hq
        rcases List.mem_flatMap.mp hq with ⟨k, _, hmem⟩
        rcases List.mem_append.mp hmem with hm | hm
        · by_cases hdot : (s.drop k).head? = some '.'
          · rw [if_pos hdot] at hm
            rcases List.mem_map.mp hm with ⟨j, _, rfl⟩
            exact List.drop_suffix _ _
          · rw [if_neg hdot] at hm
            simp at hm
        · simp only [List.mem_singleton] at hm
          rw [hm]
          exact List.drop_suffix _ _
      · unfold a2Cands at hq
        rcases List.mem_flatMap.mp hq with ⟨k, _, hmem⟩
        by_cases hsl : (s.drop k).head? = some '/'
        · rw [if_pos hsl] at hmem
          rcases List.mem_map.mp hmem with ⟨j, _, rfl⟩
          exact List.drop_suffix _ _
        · rw [if_neg hsl] at hmem
          simp at hmem
    · unfold a3Cands at hq
      rcases List.mem_flatMap.mp hq with ⟨k, _, h1⟩
      rcases List.mem_flatMap.mp h1 with ⟨w, _, h2⟩
      rcases List.mem_flatMap.mp h2 with ⟨j, _, h3⟩
      by_cases hsl : (s.drop (k + w + j)).head? = some '/'
      · rw [if_pos hsl] at h3
        rcases List.mem_map.mp h3 with ⟨m, _, rfl⟩
        exact List.drop_suffix _ _
      · rw [if_neg hsl] at h3
        simp at h3
  · simp only [List.mem_singleton] at hp
    rw [hp]

theorem uWordCands_suffix (t : List Char) : ∀ p ∈ uWordCands t, p.2 <:+ t := by
  intro p hp
  unfold uWordCands at hp
  rcases List.mem_flatMap.mp hp with ⟨k, _, hmem⟩
  rcases List.mem_append.mp hmem with hm | hm
  · rcases List.mem_flatMap.mp hm with ⟨w2, _, h2⟩
    rcases List.mem_map.mp h2 with ⟨k2, _, rfl⟩
    exact List.drop_suffix _ _
  · simp only [List.mem_singleton] at hm
    rw [hm]
    exact List.drop_suffix _ _

theorem uCands_suffix (t : List Char) : ∀ p ∈ uCands t, p.2 <:+ t := by
  intro p hp
  unfold uCands at hp
  rcases List.mem_append.mp hp with hp | hp
  · rcases List.mem_map.mp hp with ⟨q, hq, rfl⟩
    exact uWordCands_suffix t q hq
  · simp only [List.mem_singleton] at hp
    rw [hp]

theorem tryTailWs_some {rest r : List Char} (h : tryTailWs rest = some r) :
    r = rest.dropWhile pyIsSpace ∧ rest ≠ [] := by
  unfold tryTailWs at h
  by_cases hn : runLen pyIsSpace rest = 0
  · rw [if_pos hn] at h
    exact absurd h (by simp)
  · rw [if_neg hn] at h
    obtain rfl := Option.some.inj h
    constructor
    · rw [drop_runLen]
    · intro hrest
      subst hrest
      exact hn rfl

theorem mainMatch_name_shape {s : List Char} {t : Option (List Char) × Option (List Char) × List Char}
    (h : mainMatch s = some t) :
    ∃ rest, rest <:+ s ∧ rest ≠ [] ∧ t.2.2 = rest.dropWhile pyIsSpace := by
  unfold mainMatch at h
  refine @findSome?_pred _ _
    (fun t1 => ∃ rest, rest <:+ s ∧ rest ≠ [] ∧ t1.2.2 = rest.dropWhile pyIsSpace)
    _ _ (fun ac hac b hb => ?_) _ h
  refine @findSome?_pred _ _
    (fun t1 => ∃ rest, rest <:+ s ∧ rest ≠ [] ∧ t1.2.2 = rest.dropWhile pyIsSpace)
    _ _ (fun w hw b2 hb2 => ?_) _ hb
  refine @findSome?_pred _ _
    (fun t1 => ∃ rest, rest <:+ s ∧ rest ≠ [] ∧ t1.2.2 = rest.dropWhile pyIsSpace)
    _ _ (fun uc huc b3 hb3 => ?_) _ hb2
  rcases Option.map_eq_some'.mp hb3 with ⟨rr, htt, rfl⟩
  obtain ⟨hdrop, hne⟩ := tryTailWs_some htt
  refine ⟨uc.2, ?_, hne, hdrop⟩
  exact (uCands_suffix _ uc huc).trans ((List.drop_suffix w ac.2).trans (aCands_suffix s ac hac))

theorem secondaryMatch_name_shape {s : List Char} {t : List Char × List Char}
    (h : secondaryMatch s = some t) :
    ∃ rest, rest <:+ s ∧ rest ≠ [] ∧ t.2 = rest.dropWhile pyIsSpace := by
  unfold secondaryMatch at h
  refine @findSome?_pred _ _
    (fun t1 => ∃ rest, rest <:+ s ∧ rest ≠ [] ∧ t1.2 = rest.dropWhile pyIsSpace)
    _ _ (fun uc huc b hb => ?_) _ h
  rcases Option.map_eq_some'.mp hb with ⟨rr, htt, rfl⟩
  obtain ⟨hdrop, hne⟩ := tryTailWs_some htt
  exact ⟨uc.2, uWordCands_suffix s uc huc, hne, hdrop⟩

/-- The last character of a stripped line survives into the name group
of either regex match, so the extracted name is never empty. -/
theorem dropWhile_of_suffix_keeps_last {s rest : List Char} {c : Char}
    (hlast : s.getLast? = some c) (hcs : pyIsSpace c = false)
    (hsuf : rest <:+ s) (hne : rest ≠ []) :
    rest.dropWhile pyIsSpace ≠ [] ∧
      (rest.dropWhile pyIsSpace).getLast? = some c := by
  have hrest_last : rest.getLast? = some c := by
    rw [← getLast?_of_suffix hsuf hne]
    exact hlast
  have hnsnil : rest.dropWhile pyIsSpace ≠ [] := by
    intro hnil
    have hall := (List.dropWhile_eq_nil_iff).mp hnil
    have := hall c (List.mem_of_mem_getLast? hrest_last)
    rw [hcs] at this
    exact Bool.noConfusion this
  refine ⟨hnsnil, ?_⟩
  have hsuf2 : rest.dropWhile pyIsSpace <:+ rest := by
    rw [← drop_runLen]
    exact List.drop_suffix _ _
  rw [← getLast?_of_suffix hsuf2 hnsnil]
  exact hrest_last

/-- A list whose last element is a non-space character does not strip
to nothing. -/
theorem pyStripC_ne_nil_of_last {l : List Char} {c : Char}
    (hlast : l.getLast? = some c) (hcs : pyIsSpace c = false) : pyStripC l ≠ [] := by
  intro hnil
  have := (pyStripC_eq_nil_iff l).mp hnil c (List.mem_of_mem_getLast? hlast)
  rw [hcs] at this
  exact Bool.noConfusion this

/-- parse_recipe_ingredient fails exactly on lines that are blank after
trimming. -/
theorem parse_recipe_ingredient_eq_none_iff (line : String) :
    parse_recipe_ingredient line = none ↔ pyStripC line.data = [] := by
  unfold parse_recipe_ingredient
  by_cases h : pyStripC line.data = [] <;> simp [h]

/-- Every line that is non-blank after trimming parses to a triple
whose name component is non-empty. -/
theorem parse_nonblank_name (line : String) (h : pyStripC line.data ≠ []) :
    ∃ q u n, parse_recipe_ingredient line = some (q, u, n) ∧ n ≠ "" := by
  obtain ⟨c, hlast, hcs⟩ := pyStripC_getLast_not_space line.data h
  unfold parse_recipe_ingredient
  rw [if_neg h]
  cases hm : mainMatch (pyStripC line.data) with
  | some t =>
    obtain ⟨qs?, us?, ns⟩ := t
    obtain ⟨rest, hsuf, hne, hns⟩ := mainMatch_name_shape hm
    simp only at hns
    obtain ⟨hnsnil, hnslast⟩ :=
      dropWhile_of_suffix_keeps_last hlast hcs hsuf hne
    rw [← hns] at hnsnil hnslast
    refine ⟨_, _, _, rfl, ?_⟩
    rw [Ne, mkStr_eq_empty_iff, List.map_eq_nil_iff]
    exact pyStripC_ne_nil_of_last hnslast hcs
  | none =>
    cases hs : secondaryMatch (pyStripC line.data) with
    | some p =>
      obtain ⟨us, ns⟩ := p
      obtain ⟨rest, hsuf, hne, hns⟩ := secondaryMatch_name_shape hs
      simp only at hns
      obtain ⟨hnsnil, hnslast⟩ :=
        dropWhile_of_suffix_keeps_last hlast hcs hsuf hne
      rw [← hns] at hnsnil hnslast
      refine ⟨_, _, _, rfl, ?_⟩
      rw [Ne, mkStr_eq_empty_iff, List.map_eq_nil_iff]
      exact pyStripC_ne_nil_of_last hnslast hcs
    | none =>
      refine ⟨_, _, _, rfl, ?_⟩
      rw [Ne, mkStr_eq_empty_iff, List.map_eq_nil_iff]
      exact h

/-! ### Claim theorems -/

/-- C5: QuantityParser reference vectors and totality: parse of
"500 g" is (500, "g"), of "1/2 cup" is (0.5, "cup"), of "1 1/2 cups"
is (1.5, "cups"), of "abc" is (null, null), and of "2/0 cups" is
(null, null) because the division by zero is guarded; and for every
input string the function returns a pair and never raises, every parse
failure being (null, null). -/
theorem C5_quantity_parser_vectors_and_totality :
    parse_quantity_string "500 g" = (some 500, some "g") ∧
    parse_quantity_string "1/2 cup" = (some (1/2 : ℚ), some "cup") ∧
    parse_quantity_string "1 1/2 cups" = (some (3/2 : ℚ), some "cups") ∧
    parse_quantity_string "abc" = (none, none) ∧
    parse_quantity_string "2/0 cups" = (none, none) ∧
    ∀ s : String, parse_quantity_string s = (none, none) ∨
      ∃ q u, parse_quantity_string s = (some q, some u) := by
  refine ⟨by decide, by decide, by decide, by decide, by decide, fun s => ?_⟩
  unfold parse_quantity_string
  cases h : quantityPatterns (pyStripC s.data) with
  | none => exact Or.inl (by simp [h])
  | some p =>
    obtain ⟨q, u⟩ := p
    exact Or.inr ⟨q, u, by simp [h]⟩

/-- C6: IngredientLineParser reference vectors and null-iff-blank:
"2 cups Flour" parses to (2, "cups", "flour"), "1 Egg" to
(1, null, "egg"), "Salt" to (null, null, "salt"), and the parse is null
exactly when the line is blank after trimming. -/
theorem C6_line_parser_vectors_and_null_iff_blank :
    parse_recipe_ingredient "2 cups Flour" = some (some 2, some "cups", "flour") ∧
    parse_recipe_ingredient "1 Egg" = some (some 1, none, "egg") ∧
    parse_recipe_ingredient "Salt" = some (none, none, "salt") ∧
    parse_recipe_ingredient "" = none ∧
    ∀ line : String, (parse_recipe_ingredient line = none ↔ pyStripC line.data = []) := by
  exact ⟨by decide, by decide, by decide, by decide, parse_recipe_ingredient_eq_none_iff⟩

/-- C7: what the code actually does on the claim's mixed-number line.
The quantity alternation of the structural regex lists the plain-number
form first, and the backtracking search completes with it (the leading
1 as the quantity, no unit token, the rest as the name), so the
dedicated mixed-fraction branch of the quantity conversion is never
reached from this regex: "1 1/2 cups Flour" parses to quantity 1, no
unit, name "1/2 cups flour" instead of the documented
(1.5, "cups", "flour"). -/
theorem C7_mixed_number_line_actual_behaviour :
    parse_recipe_ingredient "1 1/2 cups Flour" =
      some (some 1, none, "1/2 cups flour") := by decide

/-- C8 counterexample: a unit that is not in the synonym table is
returned exactly as written, original case preserved, so
normalize("Tbsp") is "Tbsp" and not the lowercase "tbsp" the claim
states. -/
theorem C8_counterexample_unrecognized_unit_keeps_case :
    ¬ (normalizeUnit "Tbsp" = "tbsp") := by decide

/-- C8 (amended): normalization is case-insensitive synonym folding
with the g / kg / ml / l tables, so normalize("Grams") is "g"; a unit
whose lowercase form is not in the table is returned unchanged with its
original case preserved, so normalize("Tbsp") is "Tbsp" (not "tbsp"). -/
theorem C8_unit_normalizer_folding_and_passthrough :
    normalizeUnit "Grams" = "g" ∧ normalizeUnit "gram" = "g" ∧ normalizeUnit "G" = "g" ∧
    normalizeUnit "Kilogram" = "kg" ∧ normalizeUnit "KILOGRAMS" = "kg" ∧
    normalizeUnit "Milliliter" = "ml" ∧ normalizeUnit "milliliters" = "ml" ∧
    normalizeUnit "Liter" = "l" ∧ normalizeUnit "liters" = "l" ∧
    normalizeUnit "Tbsp" = "Tbsp" ∧
    ∀ u : String,
      lowerStr u ∉ (["g", "gram", "grams", "kg", "kilogram", "kilograms",
        "ml", "milliliter", "milliliters", "l", "liter", "liters"] : List String) →
      normalizeUnit u = u := by
  refine ⟨by decide, by decide, by decide, by decide, by decide, by decide, by decide,
    by decide, by decide, by decide, fun u h => ?_⟩
  simp only [List.mem_cons, List.not_mem_nil, or_false, not_or] at h
  obtain ⟨h1, h2, h3, h4, h5, h6, h7, h8, h9, h10, h11, h12⟩ := h
  simp [normalizeUnit, h1, h2, h3, h4, h5, h6, h7, h8, h9, h10, h11, h12]

theorem C8_unit_normalizer_folding_and_passthrough_witness :
    lowerStr "Tbsp" ∉ (["g", "gram", "grams", "kg", "kilogram", "kilograms",
      "ml", "milliliter", "milliliters", "l", "liter", "liters"] : List String) ∧
    normalizeUnit "Tbsp" = "Tbsp" :=
  ⟨by decide,
   C8_unit_normalizer_folding_and_passthrough.2.2.2.2.2.2.2.2.2.2 "Tbsp" (by decide)⟩

/-- C3: DeductionExecutor semantics: a plan entry subtracts its amount
from the targeted field of the referenced record; a result at or below
zero deletes the whole record (both fields discarded), otherwise only
the targeted field changes and the record is kept. In particular a
record with quantity 2 deducted by 2 is deleted and a record with
quantity 5 deducted by 2 becomes quantity 3 and is kept. -/
theorem C3_deduction_executor_semantics :
    (∀ (slots : List (Option IngredientRecord)) (updated deleted : List String)
       (i : Nat) (ing rec : IngredientRecord) (a v : ℚ),
      slots.get? i = some (some rec) → rec.quantity = some v →
      (v - a ≤ 0 →
        applyDeduction (slots, updated, deleted) ⟨i, ing, a, DeductField.quantity⟩ =
          (slots.set i none, updated, deleted ++ [rec.name])) ∧
      (¬ v - a ≤ 0 →
        applyDeduction (slots, updated, deleted) ⟨i, ing, a, DeductField.quantity⟩ =
          (slots.set i (some { rec with quantity := some (v - a) }),
           updated ++ [rec.name], deleted))) ∧
    (∀ (slots : List (Option IngredientRecord)) (updated deleted : List String)
       (i : Nat) (ing rec : IngredientRecord) (a v : ℚ),
      slots.get? i = some (some rec) → rec.weight = some v →
      (v - a ≤ 0 →
        applyDeduction (slots, updated, deleted) ⟨i, ing, a, DeductField.weight⟩ =
          (slots.set i none, updated, deleted ++ [rec.name])) ∧
      (¬ v - a ≤ 0 →
        applyDeduction (slots, updated, deleted) ⟨i, ing, a, DeductField.weight⟩ =
          (slots.set i (some { rec with weight := some (v - a) }),
           updated ++ [rec.name], deleted))) ∧
    applyDeductions [⟨"milk", some 2, none, none, none⟩]
        [⟨0, ⟨"milk", some 2, none, none, none⟩, 2, DeductField.quantity⟩] =
      ([none], [], ["milk"]) ∧
    applyDeductions [⟨"flour", some 5, some "cups", none, none⟩]
        [⟨0, ⟨"flour", some 5, some "cups", none, none⟩, 2, DeductField.quantity⟩] =
      ([some ⟨"flour", some 3, some "cups", none, none⟩], ["flour"], []) := by
  refine ⟨?_, ?_, by decide, by decide⟩
  · intro slots updated deleted i ing rec a v hget hq
    refine ⟨fun hle => ?_, fun hle => ?_⟩
    · simp only [applyDeduction, hget, hq, Option.getD_some, if_pos hle]
    · simp only [applyDeduction, hget, hq, Option.getD_some, if_neg hle]
  · intro slots updated deleted i ing rec a v hget hw
    refine ⟨fun hle => ?_, fun hle => ?_⟩
    · simp only [applyDeduction, hget, hw, Option.getD_some, if_pos hle]
    · simp only [applyDeduction, hget, hw, Option.getD_some, if_neg hle]

theorem C3_deduction_executor_semantics_witness :
    ([some (⟨"milk", some 2, none, none, none⟩ : IngredientRecord)].get? 0 =
      some (some (⟨"milk", some 2, none, none, none⟩ : IngredientRecord))) ∧
    ((⟨"milk", some 2, none, none, none⟩ : IngredientRecord).quantity = some 2) ∧
    ((2 : ℚ) - 2 ≤ 0) ∧
    applyDeduction ([some ⟨"milk", some 2, none, none, none⟩], [], [])
        ⟨0, ⟨"milk", some 2, none, none, none⟩, 2, DeductField.quantity⟩ =
      ([some (⟨"milk", some 2, none, none, none⟩ : IngredientRecord)].set 0 none, [],
       [] ++ ["milk"]) :=
  ⟨by decide, by decide, by decide,
   (C3_deduction_executor_semantics.1 [some ⟨"milk", some 2, none, none, none⟩] [] [] 0
      ⟨"milk", some 2, none, none, none⟩ ⟨"milk", some 2, none, none, none⟩ 2 2
      (by decide) (by decide)).1 (by decide)⟩

/-! ### Helper lemmas for the matcher claims -/

theorem enumFrom_snd_mem {α : Type} :
    ∀ (l : List α) (n : Nat) (p : Nat × α), p ∈ List.enumFrom n l → p.2 ∈ l := by
  intro l
  induction l with
  | nil => intro n p h; simp [List.enumFrom] at h
  | cons x xs ih =>
    intro n p h
    have h' : p = (n, x) ∨ p ∈ List.enumFrom (n + 1) xs := List.mem_cons.mp h
    rcases h' with h' | h'
    · subst h'; simp
    · exact List.mem_cons_of_mem _ (ih (n + 1) p h')

theorem fridgeLookup_foldl_none (key : String) :
    ∀ (l : List (Nat × IngredientRecord)) (acc : Option (Nat × IngredientRecord)),
      (∀ p ∈ l, lowerStr p.2.name ≠ key) →
      l.foldl (fun acc p => if lowerStr p.2.name = key then some (p.1, p.2) else acc) acc = acc := by
  intro l
  induction l with
  | nil => intro acc _; rfl
  | cons p ps ih =>
    intro acc h
    have hp : lowerStr p.2.name ≠ key := h p (List.mem_cons_self p ps)
    simp only [List.foldl_cons, if_neg hp]
    exact ih acc (fun q hq => h q (List.mem_cons_of_mem p hq))

/-- When no inventory record's lowercased name equals the key, the
dict lookup fails. -/
theorem fridgeLookup_none (inv : List IngredientRecord) (key : String)
    (h : ∀ rec ∈ inv, lowerStr rec.name ≠ key) : fridgeLookup inv key = none := by
  unfold fridgeLookup
  exact fridgeLookup_foldl_none key inv.enum none
    (fun p hp => h p.2 (enumFrom_snd_mem inv 0 p hp))

/-- Shared step lemma: an eligible, sufficient quantity field produces
exactly the priority-1 plan entry. -/
theorem matchStep_qty_plan (inv : List IngredientRecord) (plans : List PlanEntry)
    (missing mismatches : List String) (item : RequiredItem)
    (i : Nat) (rec : IngredientRecord) (q fq : ℚ)
    (hlook : fridgeLookup inv item.name = some (i, rec))
    (hqty : item.qty = some q) (hq : rec.quantity = some fq)
    (hall : unitsAllow item.unit rec.unit = true) (hle : q ≤ fq) :
    matchStep inv (plans, missing, mismatches) item =
      (plans ++ [⟨i, rec, q, DeductField.quantity⟩], missing, mismatches) := by
  have hd : qtyFieldDeducts item rec q = true := by
    simp [qtyFieldDeducts, hq, hall, hle]
  simp [matchStep, hlook, hqty, hd]

/-- C1: InventoryMatcher priority order and feasibility: for a required
item with a quantity, the record's quantity field is tried first, its
eligibility being exactly that the required unit is null, the record
unit is null or empty, or the two are equal after lowercasing; when it
is eligible and holds at least the required amount, the plan deducts
exactly the required amount from the quantity field; the weight field
is consulted only when the quantity field produced no plan. The
flour/cups scenario produces exactly that plan with empty missing and
mismatch lists, and a required name with no case-insensitive inventory
match contributes its original line to missing and no plan entry. -/
theorem C1_matcher_priority_and_feasibility :
    (∀ (inv : List IngredientRecord) (plans : List PlanEntry)
       (missing mismatches : List String) (item : RequiredItem)
       (i : Nat) (rec : IngredientRecord) (q fq : ℚ),
      fridgeLookup inv item.name = some (i, rec) →
      item.qty = some q →
      rec.quantity = some fq → unitsAllow item.unit rec.unit = true → q ≤ fq →
      matchStep inv (plans, missing, mismatches) item =
        (plans ++ [⟨i, rec, q, DeductField.quantity⟩], missing, mismatches)) ∧
    (∀ ru fu, unitsAllow ru fu = true ↔
      (ru = none ∨ fu = none ∨ fu = some "" ∨
       ∃ r f, ru = some r ∧ fu = some f ∧ lowerStr r = lowerStr f)) ∧
    (∀ (inv : List IngredientRecord) (plans : List PlanEntry)
       (missing mismatches : List String) (item : RequiredItem)
       (i : Nat) (rec : IngredientRecord) (q fw : ℚ),
      fridgeLookup inv item.name = some (i, rec) →
      item.qty = some q →
      qtyFieldDeducts item rec q = false →
      rec.weight = some fw → unitsAllow item.unit rec.weight_unit = true → q ≤ fw →
      matchStep inv (plans, missing, mismatches) item =
        (plans ++ [⟨i, rec, q, DeductField.weight⟩], missing, mismatches)) ∧
    matchRequired [⟨"flour", some 2, some "cups", "2 cups Flour"⟩]
        [⟨"flour", some 5, some "cups", none, none⟩] =
      ([⟨0, ⟨"flour", some 5, some "cups", none, none⟩, 2, DeductField.quantity⟩], [], []) ∧
    (∀ (inv : List IngredientRecord) (plans : List PlanEntry)
       (missing mismatches : List String) (item : RequiredItem),
      item.name = lowerStr item.name →
      (∀ rec ∈ inv, lowerStr rec.name ≠ lowerStr item.name) →
      matchStep inv (plans, missing, mismatches) item =
        (plans, missing ++ [item.original_line], mismatches)) := by
  refine ⟨matchStep_qty_plan, ?_, ?_, by decide, ?_⟩
  · intro ru fu
    rcases ru with _ | r <;> rcases fu with _ | f <;> simp [unitsAllow]
  · intro inv plans missing mismatches item i rec q fw hlook hqty hnoq hw hall hle
    have hd : wtFieldDeducts item rec q = true := by
      simp [wtFieldDeducts, hw, hall, hle]
    simp [matchStep, hlook, hqty, hnoq, hd]
  · intro inv plans missing mismatches item hlow h
    have hnone : fridgeLookup inv item.name = none := by
      refine fridgeLookup_none inv item.name (fun rec hrec => ?_)
      rw [hlow]
      exact h rec hrec
    simp [matchStep, hnone]

theorem C1_matcher_priority_and_feasibility_witness :
    fridgeLookup [⟨"flour", some 5, some "cups", none, none⟩] "flour" =
      some (0, ⟨"flour", some 5, some "cups", none, none⟩) ∧
    unitsAllow (some "cups") (some "cups") = true ∧ ((2 : ℚ) ≤ 5) ∧
    matchStep [⟨"flour", some 5, some "cups", none, none⟩] ([], [], [])
        ⟨"flour", some 2, some "cups", "2 cups Flour"⟩ =
      ([] ++ [⟨0, ⟨"flour", some 5, some "cups", none, none⟩, 2, DeductField.quantity⟩],
       [], []) :=
  ⟨by decide, by decide, by decide,
   C1_matcher_priority_and_feasibility.1
     [⟨"flour", some 5, some "cups", none, none⟩] [] [] []
     ⟨"flour", some 2, some "cups", "2 cups Flour"⟩ 0
     ⟨"flour", some 5, some "cups", none, none⟩ 2 5
     (by decide) rfl rfl (by decide) (by decide)⟩

/-- C2: failure classification and all-or-nothing commit: a required
item with a quantity that cannot be planned is reported in
unit_mismatches exactly when the code's explicit unit-conflict test
(non-null field value, non-null required unit, truthy record unit,
lowercased units different; quantity field first, then weight field)
fires, and otherwise leaves every list untouched and adds no plan
entry; the conflict tests are characterized in terms of the record
fields; and the deductions are executed only when missing and
unit_mismatches are both empty, any non-empty list leaving the whole
inventory unchanged. -/
theorem C2_failure_classification_and_all_or_nothing :
    (∀ (inv : List IngredientRecord) (plans : List PlanEntry)
       (missing mismatches : List String) (item : RequiredItem)
       (i : Nat) (rec : IngredientRecord) (q : ℚ),
      fridgeLookup inv item.name = some (i, rec) →
      item.qty = some q →
      qtyFieldDeducts item rec q = false →
      wtFieldDeducts item rec q = false →
      (unitConflictQty item rec || unitConflictWt item rec) = true →
      matchStep inv (plans, missing, mismatches) item =
        (plans, missing, mismatches ++ [item.original_line])) ∧
    (∀ (inv : List IngredientRecord) (plans : List PlanEntry)
       (missing mismatches : List String) (item : RequiredItem)
       (i : Nat) (rec : IngredientRecord) (q : ℚ),
      fridgeLookup inv item.name = some (i, rec) →
      item.qty = some q →
      qtyFieldDeducts item rec q = false →
      wtFieldDeducts item rec q = false →
      (unitConflictQty item rec || unitConflictWt item rec) = false →
      matchStep inv (plans, missing, mismatches) item =
        (plans, missing, mismatches)) ∧
    (∀ item rec, unitConflictQty item rec = true ↔
      (rec.quantity.isSome = true ∧
       ∃ ru fu, item.unit = some ru ∧ rec.unit = some fu ∧ fu ≠ "" ∧
         lowerStr ru ≠ lowerStr fu)) ∧
    (∀ item rec, unitConflictWt item rec = true ↔
      (rec.weight.isSome = true ∧
       ∃ ru fu, item.unit = some ru ∧ rec.weight_unit = some fu ∧ fu ≠ "" ∧
         lowerStr ru ≠ lowerStr fu)) ∧
    (∀ (required : List RequiredItem) (inv : List IngredientRecord),
      (matchRequired required inv).2.1 ≠ [] ∨ (matchRequired required inv).2.2 ≠ [] →
      useRecipeCore required inv =
        (inv, (matchRequired required inv).2.1, (matchRequired required inv).2.2)) := by
  refine ⟨?_, ?_, ?_, ?_, ?_⟩
  · intro inv plans missing mismatches item i rec q hlook hqty hnoq hnow hconf
    simp [matchStep, hlook, hqty, hnoq, hnow, hconf]
  · intro inv plans missing mismatches item i rec q hlook hqty hnoq hnow hconf
    simp only [Bool.or_eq_false_iff] at hconf
    simp [matchStep, hlook, hqty, hnoq, hnow, hconf.1, hconf.2]
  · intro item rec
    rcases hu : item.unit with _ | ru <;>
      rcases hf : rec.unit with _ | fu <;>
        simp [unitConflictQty, strTruthy, hu, hf]
    exact and_assoc
  · intro item rec
    rcases hu : item.unit with _ | ru <;>
      rcases hf : rec.weight_unit with _ | fu <;>
        simp [unitConflictWt, strTruthy, hu, hf]
    exact and_assoc
  · intro required inv h
    rcases hm : matchRequired required inv with ⟨plan, missing, mismatches⟩
    rw [hm] at h
    have hcond : ¬ (missing = [] ∧ mismatches = []) := by
      rcases h with h | h
      · exact fun hc => h hc.1
      · exact fun hc => h hc.2
    simp only [useRecipeCore, hm, if_neg hcond]

theorem C2_failure_classification_and_all_or_nothing_witness :
    ((matchRequired [⟨"flour", some 2, some "cups", "2 cups Flour"⟩]
        [⟨"flour", some 1, some "kg", none, none⟩]).2.2 ≠ []) ∧
    useRecipeCore [⟨"flour", some 2, some "cups", "2 cups Flour"⟩]
        [⟨"flour", some 1, some "kg", none, none⟩] =
      ([⟨"flour", some 1, some "kg", none, none⟩],
       (matchRequired [⟨"flour", some 2, some "cups", "2 cups Flour"⟩]
          [⟨"flour", some 1, some "kg", none, none⟩]).2.1,
       (matchRequired [⟨"flour", some 2, some "cups", "2 cups Flour"⟩]
          [⟨"flour", some 1, some "kg", none, none⟩]).2.2) ∧
    matchStep [⟨"flour", some 1, some "kg", none, none⟩] ([], [], [])
        ⟨"flour", some 2, some "cups", "2 cups Flour"⟩ =
      ([], [], [] ++ ["2 cups Flour"]) :=
  ⟨by decide,
   C2_failure_classification_and_all_or_nothing.2.2.2.2
     [⟨"flour", some 2, some "cups", "2 cups Flour"⟩]
     [⟨"flour", some 1, some "kg", none, none⟩] (Or.inr (by decide)),
   C2_failure_classification_and_all_or_nothing.1
     [⟨"flour", some 1, some "kg", none, none⟩] [] [] []
     ⟨"flour", some 2, some "cups", "2 cups Flour"⟩ 0
     ⟨"flour", some 1, some "kg", none, none⟩ 2
     (by decide) rfl (by decide) (by decide) (by decide)⟩

/-- C4 counterexample: required unit g (the normalization of grams)
against a record stored with unit grams: both units fold to g under
the synonym table, yet the matcher produces no plan entry and reports
a unit mismatch, because the stored inventory unit is never passed
through the table; the claim's eligibility statement fails here. -/
theorem C4_counterexample_stored_synonym_not_eligible :
    normalizeUnit "g" = normalizeUnit "grams" ∧
    matchRequired [⟨"flour", some 2, some "g", "2 g flour"⟩]
        [⟨"flour", some 5, some "grams", none, none⟩] =
      ([], [], ["2 g flour"]) := by decide

/-- C4 (amended): unit matching normalizes only the recipe-side unit:
with a required unit already folded by the table, the record's quantity
field is eligible iff the stored unit is empty or equal, after
lowercasing, to that folded unit, taken verbatim; so a deduction plan
is produced for a synonym only when the inventory record stores the
canonical form itself, and a record storing a non-canonical synonym of
the same unit mismatches instead. -/
theorem C4_amended_normalization_is_recipe_side_only :
    (∀ ru fu, unitsAllow (some ru) (some fu) = true ↔
      (fu = "" ∨ lowerStr ru = lowerStr fu)) ∧
    (∀ (inv : List IngredientRecord) (plans : List PlanEntry)
       (missing mismatches : List String) (item : RequiredItem)
       (i : Nat) (rec : IngredientRecord) (q fq : ℚ) (ru cu : String),
      fridgeLookup inv item.name = some (i, rec) →
      item.qty = some q →
      item.unit = some (normalizeUnit ru) →
      rec.unit = some cu →
      lowerStr (normalizeUnit ru) = lowerStr cu →
      rec.quantity = some fq → q ≤ fq →
      matchStep inv (plans, missing, mismatches) item =
        (plans ++ [⟨i, rec, q, DeductField.quantity⟩], missing, mismatches)) := by
  constructor
  · intro ru fu
    by_cases hf : fu = "" <;> simp [unitsAllow, hf]
  · intro inv plans missing mismatches item i rec q fq ru cu hlook hqty hu hcu heq hq hle
    have hall : unitsAllow item.unit rec.unit = true := by
      rw [hu, hcu]
      by_cases hce : cu = "" <;> simp [unitsAllow, hce, heq]
    exact matchStep_qty_plan inv plans missing mismatches item i rec q fq
      hlook hqty hq hall hle

theorem C4_amended_normalization_is_recipe_side_only_witness :
    lowerStr (normalizeUnit "Grams") = lowerStr "g" ∧
    matchStep [⟨"flour", some 5, some "g", none, none⟩] ([], [], [])
        ⟨"flour", some 2, some (normalizeUnit "Grams"), "2 Grams Flour"⟩ =
      ([] ++ [⟨0, ⟨"flour", some 5, some "g", none, none⟩, 2, DeductField.quantity⟩],
       [], []) :=
  ⟨by decide,
   C4_amended_normalization_is_recipe_side_only.2
     [⟨"flour", some 5, some "g", none, none⟩] [] [] []
     ⟨"flour", some 2, some (normalizeUnit "Grams"), "2 Grams Flour"⟩ 0
     ⟨"flour", some 5, some "g", none, none⟩ 2 5 "Grams" "g"
     (by decide) rfl rfl rfl (by decide) rfl (by decide)⟩

/-! ### Helper lemmas for the markdown parser claim -/

theorem validateRecipe_valid {r r' : RecipeAcc} (h : validateRecipe r = some r') :
    ValidRecipe r' := by
  unfold validateRecipe at h
  split_ifs at h
  simp_all [ValidRecipe]

theorem mdFinalize_mem {recipes : List RecipeAcc} {cur : Option RecipeAcc}
    {r : RecipeAcc} (h : r ∈ mdFinalize recipes cur) : r ∈ recipes ∨ ValidRecipe r := by
  unfold mdFinalize at h
  rcases ho : cur.bind validateRecipe with _ | r'
  · rw [ho] at h
    rcases List.mem_append.mp h with h | h
    · exact Or.inl h
    · simp at h
  · rw [ho] at h
    rcases List.mem_append.mp h with h | h
    · exact Or.inl h
    · simp at h
      subst h
      obtain ⟨c, _, hv⟩ := Option.bind_eq_some.mp ho
      exact Or.inr (validateRecipe_valid hv)

theorem mdStep_recipes (st : MdState) (line : List Char) :
    (mdStep st line).recipes = st.recipes ∨
    (mdStep st line).recipes = mdFinalize st.recipes st.cur := by
  unfold mdStep
  dsimp only
  repeat' split
  all_goals first | exact Or.inl rfl | exact Or.inr rfl

theorem mdFold_inv :
    ∀ (lines : List (List Char)) (st : MdState),
      (∀ r ∈ st.recipes, ValidRecipe r) →
      ∀ r ∈ (lines.foldl mdStep st).recipes, ValidRecipe r := by
  intro lines
  induction lines with
  | nil => intro st h; exact h
  | cons l ls ih =>
    intro st h
    refine ih (mdStep st l) (fun r hr => ?_)
    rcases mdStep_recipes st l with he | he
    · exact h r (he ▸ hr)
    · rcases mdFinalize_mem (he ▸ hr) with hm | hm
      · exact h r hm
      · exact hm

/-- C9: RecipeSuggestionFormatter validity and discard-and-continue:
every parsed recipe has a non-empty title, a non-empty ingredient list
and a non-empty instruction list; a block missing its instruction
section is discarded without aborting, so a later well-formed recipe in
the same input still appears; and a well-formed two-recipe input yields
exactly the two recipes with correctly separated lists. -/
theorem C9_markdown_validity_and_discard_continue :
    (∀ (raw : String) (r : RecipeAcc), r ∈ parse_markdown_recipes raw →
      r.title ≠ "" ∧ r.ingredients ≠ [] ∧ r.instructions ≠ []) ∧
    parse_markdown_recipes
        "## Omelette\n### Ingredients\n* 2 Eggs\n* Salt\n### Instructions\n1. Beat eggs.\n2. Cook.\n## Toast\n### Ingredients\n- Bread\n### Instructions\n1. Toast it." =
      [⟨"Omelette", ["2 Eggs", "Salt"], ["Beat eggs.", "Cook."]⟩,
       ⟨"Toast", ["Bread"], ["Toast it."]⟩] ∧
    parse_markdown_recipes
        "## Broken\n### Ingredients\n* Bread\n## Toast\n### Ingredients\n- Bread\n### Instructions\n1. Toast it." =
      [⟨"Toast", ["Bread"], ["Toast it."]⟩] := by
  refine ⟨?_, by decide, by decide⟩
  intro raw r hr
  unfold parse_markdown_recipes at hr
  rcases mdFinalize_mem hr with h | h
  · exact mdFold_inv (pySplitOn '\n' (pyStripC raw.data)) ⟨[], none, none⟩
      (by intro x hx; simp at hx) r h
  · exact h

theorem C9_markdown_validity_and_discard_continue_witness :
    ((⟨"Toast", ["Bread"], ["Toast it."]⟩ : RecipeAcc) ∈
      parse_markdown_recipes
        "## Toast\n### Ingredients\n- Bread\n### Instructions\n1. Toast it.") ∧
    ((⟨"Toast", ["Bread"], ["Toast it."]⟩ : RecipeAcc).title ≠ "" ∧
     (⟨"Toast", ["Bread"], ["Toast it."]⟩ : RecipeAcc).ingredients ≠ [] ∧
     (⟨"Toast", ["Bread"], ["Toast it."]⟩ : RecipeAcc).instructions ≠ []) :=
  ⟨by decide,
   C9_markdown_validity_and_discard_continue.1
     "## Toast\n### Ingredients\n- Bread\n### Instructions\n1. Toast it."
     ⟨"Toast", ["Bread"], ["Toast it."]⟩ (by decide)⟩

/-! ### The implicit parsing-safety claim -/

theorem requiredStep_errs (acc : List RequiredItem × List String) (lc : List Char) :
    (requiredStep acc lc).2 = acc.2 := by
  obtain ⟨req, errs⟩ := acc
  cases hp : parse_recipe_ingredient (String.mk lc) with
  | none =>
    have hblank : pyStripC lc = [] :=
      (parse_recipe_ingredient_eq_none_iff (String.mk lc)).mp hp
    simp [requiredStep, hp, hblank]
  | some t =>
    obtain ⟨q, u, n⟩ := t
    have hnb : pyStripC lc ≠ [] := by
      intro hb
      rw [(parse_recipe_ingredient_eq_none_iff (String.mk lc)).mpr hb] at hp
      exact Option.noConfusion hp
    obtain ⟨q', u', n', hp', hn'⟩ := parse_nonblank_name (String.mk lc) hnb
    rw [hp] at hp'
    have heq := Option.some.inj hp'
    have hn : n ≠ "" := by
      have h3 : n = n' := congrArg (fun x => x.2.2) heq
      rw [h3]
      exact hn'
    simp [requiredStep, hp, hn]

theorem parseRequired_foldl_errs :
    ∀ (lines : List (List Char)) (acc : List RequiredItem × List String),
      (lines.foldl requiredStep acc).2 = acc.2 := by
  intro lines
  induction lines with
  | nil => intro acc; rfl
  | cons l ls ih =>
    intro acc
    rw [List.foldl_cons, ih, requiredStep_errs]

/-- C10 (implicit): every line that is non-blank after trimming yields
a non-null triple whose name component is non-empty and the parser
never raises (when no structural pattern applies, the name defaults to
the whole trimmed line); consequently the per-line parsing-errors
collection of use_recipe is empty for every recipe text and the
fail-closed abort-before-matching branch is unreachable. -/
theorem C10_line_parsing_total_and_abort_unreachable :
    (∀ line : String, pyStripC line.data ≠ [] →
      ∃ q u n, parse_recipe_ingredient line = some (q, u, n) ∧ n ≠ "") ∧
    ∀ text : String, (parseRequiredItems text).2 = [] := by
  refine ⟨parse_nonblank_name, fun text => ?_⟩
  unfold parseRequiredItems
  exact parseRequired_foldl_errs _ _

theorem C10_line_parsing_total_and_abort_unreachable_witness :
    pyStripC ("Salt" : String).data ≠ [] ∧
    ∃ q u n, parse_recipe_ingredient "Salt" = some (q, u, n) ∧ n ≠ "" :=
  ⟨by decide, C10_line_parsing_total_and_abort_unreachable.1 "Salt" (by decide)⟩

end SmartFridge
